import Mathlib

/-!
# Verification of the frame-sequence augmentation and batch-generation engine

Shallow embedding of `src/we_panic_utils/we_panic_utils/nn/processing.py`:
the geometric transform library (`random_sequence_rotation`, `random_sequence_shift`,
`random_sequence_shear`, `random_sequence_zoom`, `sequence_flip_axis`), the sequence
assembler (`get_sample_frames`, `build_image_sequence`, `process_img`) and the
`FrameProcessor` generators (`frame_generator`, `testing_generator`).

Modelling conventions:
* A decoded image (`Frame`) is a rank-3 array of shape (H, W, C) represented as nested
  lists of rationals; a `FrameSeq` is the ordered list of frames of one sample.
* Floating-point arithmetic is modelled over `ℚ`.  The numpy trigonometric helpers
  (`np.cos`, `np.sin`) and the float approximation of `π` used by `np.deg2rad` are
  modelled by an abstract parameter record `NpMath`: no claim under verification
  depends on particular trigonometric values, only on how the code composes them.
* The process-wide random sources are modelled by explicit streams: `rng : ℕ → ℚ`
  gives the successive raw draws of `np.random` in `[0,1)` (a call to
  `np.random.uniform(lo, hi)` consumes one draw `u` and returns `lo + u*(hi-lo)`;
  `np.random.random_sample()` consumes one draw and returns it), threaded through the
  code together with a position counter, and `pick : ℕ → ℕ` drives the index choices
  of `random.sample`.
* The filesystem is an explicit record `FileSys`; image decoding + resizing performed
  by the keras `load_img`/`img_to_array` library pair is its `load` field, which is
  `none` exactly when the file is missing or undecodable (the `IOError` cases).
* Fallible code returns `Except String`; error strings name the Python exception.
* The keras library helpers `transform_matrix_offset_center` and `apply_transform`
  (2-D affine resampling with spline order 0, i.e. nearest-neighbour lookup, and
  `mode='nearest'` boundary clamping, applied per channel slice after rolling the
  channel axis to the front) are embedded from their library definitions, specialised
  to the two channel-axis values (1 and 2) this repository uses.
-/

/-- A decoded image: rank-3 array of shape (H, W, C), pixel values in `ℚ`. -/
abbrev Frame : Type := List (List (List ℚ))

/-- An ordered sequence of frames belonging to one sample. -/
abbrev FrameSeq : Type := List Frame

/-- A label: the `(heart_rate, respiration_rate)` pair attached to one sample path. -/
abbrev Label : Type := ℚ × ℚ

/-- Abstract stand-in for the numpy floating-point math the transforms use:
`cos`, `sin`, and the float value of `π` (used by `np.deg2rad`).  The claims under
verification never depend on the particular values, so they are left abstract. -/
structure NpMath where
  cos : ℚ → ℚ
  sin : ℚ → ℚ
  pi : ℚ

/-- Numpy `np.deg2rad(v) = v * π / 180`. -/
def np_deg2rad (nm : NpMath) (v : ℚ) : ℚ := v * nm.pi / 180

/-- Numpy `np.random.uniform(lo, hi)` given the raw draw `u ∈ [0,1)`: `lo + u * (hi - lo)`. -/
def np_uniform (lo hi u : ℚ) : ℚ := lo + u * (hi - lo)

/-- A 3×3 affine matrix in homogeneous coordinates (row-major fields). -/
structure Mat3 where
  m00 : ℚ
  m01 : ℚ
  m02 : ℚ
  m10 : ℚ
  m11 : ℚ
  m12 : ℚ
  m20 : ℚ
  m21 : ℚ
  m22 : ℚ
deriving DecidableEq, Repr

/-- Numpy `np.dot` on 3×3 matrices. -/
def Mat3.mul (a b : Mat3) : Mat3 :=
  ⟨a.m00 * b.m00 + a.m01 * b.m10 + a.m02 * b.m20,
   a.m00 * b.m01 + a.m01 * b.m11 + a.m02 * b.m21,
   a.m00 * b.m02 + a.m01 * b.m12 + a.m02 * b.m22,
   a.m10 * b.m00 + a.m11 * b.m10 + a.m12 * b.m20,
   a.m10 * b.m01 + a.m11 * b.m11 + a.m12 * b.m21,
   a.m10 * b.m02 + a.m11 * b.m12 + a.m12 * b.m22,
   a.m20 * b.m00 + a.m21 * b.m10 + a.m22 * b.m20,
   a.m20 * b.m01 + a.m21 * b.m11 + a.m22 * b.m21,
   a.m20 * b.m02 + a.m21 * b.m12 + a.m22 * b.m22⟩

/-- The identity 3×3 matrix. -/
def idMat3 : Mat3 := ⟨1, 0, 0, 0, 1, 0, 0, 0, 1⟩

/-- keras `transform_matrix_offset_center(matrix, x, y)`:
`o_x = x/2 + 0.5`, `o_y = y/2 + 0.5`, result `offset ⬝ matrix ⬝ reset`. -/
def transform_matrix_offset_center (matrix : Mat3) (x y : ℚ) : Mat3 :=
  let o_x : ℚ := x / 2 + 1 / 2
  let o_y : ℚ := y / 2 + 1 / 2
  let offset_matrix : Mat3 := ⟨1, 0, o_x, 0, 1, o_y, 0, 0, 1⟩
  let reset_matrix : Mat3 := ⟨1, 0, -o_x, 0, 1, -o_y, 0, 0, 1⟩
  offset_matrix.mul (matrix.mul reset_matrix)

/-- The `x.shape` tuple of a rank-3 nested-list array. -/
def shapeOf (x : Frame) : List ℕ :=
  [x.length, (x.headD []).length, ((x.headD []).headD []).length]

/-- The dimension `x.shape[ax]` as a rational (axis out of range yields 0; the source only uses 0-2). -/
def axisDim (x : Frame) (ax : ℕ) : ℚ := (((shapeOf x).getD ax 0 : ℕ) : ℚ)

/-- Nearest-neighbour index for spline order 0 resampling: `⌊q + 1/2⌋`. -/
def nearestIdx (q : ℚ) : ℤ := ⌊q + 1 / 2⌋

/-- The `mode='nearest'` boundary handling: clamp an integer index into `[0, n-1]`. -/
def clampIdx (n : ℕ) (z : ℤ) : ℕ := min z.toNat (n - 1)

/-- Indexing a rank-3 array, out-of-range reads defaulting to 0 (never reached after
clamping into a well-shaped frame). -/
def get3 (x : Frame) (i j k : ℕ) : ℚ := ((x.getD i []).getD j []).getD k 0

/-- Build a rank-3 array of shape (h, w, c) from an entry function. -/
def listMap3 (h w c : ℕ) (f : ℕ → ℕ → ℕ → ℚ) : Frame :=
  (List.range h).map fun i => (List.range w).map fun j => (List.range c).map fun k => f i j k

/-- keras `apply_transform(x, transform_matrix, channel_axis, fill_mode='nearest', cval)`:
roll `channel_axis` to the front, apply the 2-D affine map given by the top-left 2×2
block and the top-right offset column of `transform_matrix` to every channel slice with
nearest-neighbour lookup and `'nearest'` boundary clamping, roll back.  Specialised to
the two channel-axis values used by this repository: with `channel_axis = 2` the slices
are the (H, W) planes, with `channel_axis = 1` the slices are the (H, C) planes (axis 1
is passed through untouched). -/
def apply_transform (channel_axis : ℕ) (m : Mat3) (x : Frame) : Frame :=
  if channel_axis = 1 then
    listMap3 x.length (x.headD []).length ((x.headD []).headD []).length fun i j k =>
      get3 x (clampIdx x.length (nearestIdx (m.m00 * (i : ℚ) + m.m01 * (k : ℚ) + m.m02)))
        j
        (clampIdx ((x.headD []).headD []).length
          (nearestIdx (m.m10 * (i : ℚ) + m.m11 * (k : ℚ) + m.m12)))
  else
    listMap3 x.length (x.headD []).length ((x.headD []).headD []).length fun i j k =>
      get3 x (clampIdx x.length (nearestIdx (m.m00 * (i : ℚ) + m.m01 * (j : ℚ) + m.m02)))
        (clampIdx (x.headD []).length
          (nearestIdx (m.m10 * (i : ℚ) + m.m11 * (j : ℚ) + m.m12)))
        k

/-- The single transform matrix computed by `random_sequence_rotation` from the one
uniform draw `u`: `theta = deg2rad(uniform(-rotation_range, rotation_range))`, rotation
matrix `[[cos θ, -sin θ, 0], [sin θ, cos θ, 0], [0, 0, 1]]`, composed about the frame
center. -/
def rotation_transform_matrix (nm : NpMath) (rotation_range u h w : ℚ) : Mat3 :=
  let theta := np_deg2rad nm (np_uniform (-rotation_range) rotation_range u)
  let rotation_matrix : Mat3 :=
    ⟨nm.cos theta, -nm.sin theta, 0, nm.sin theta, nm.cos theta, 0, 0, 0, 1⟩
  transform_matrix_offset_center rotation_matrix h w

/-- Source `random_sequence_rotation(seq, rotation_range, row_axis=0, col_axis=1,
channel_axis=2, fill_mode='nearest', cval=0)`: one draw of `np.random.uniform`,
one matrix, applied to every frame of the sequence.  Returns the transformed
sequence together with the advanced position of the random stream. -/
def random_sequence_rotation (nm : NpMath) (seq : FrameSeq) (rotation_range : ℚ)
    (rng : ℕ → ℚ) (pos : ℕ) (row_axis : ℕ := 0) (col_axis : ℕ := 1)
    (channel_axis : ℕ := 2) : FrameSeq × ℕ :=
  let x0 := seq.headD []
  let h := axisDim x0 row_axis
  let w := axisDim x0 col_axis
  let transform_matrix := rotation_transform_matrix nm rotation_range (rng pos) h w
  (seq.map fun x => apply_transform channel_axis transform_matrix x, pos + 1)

/-- The single transform matrix computed by `random_sequence_shift` from the two
uniform draws `u1`, `u2`:
`tx = uniform(-height_shift_range, height_shift_range) * h`,
`ty = uniform(-width_shift_range, width_shift_range) * w`, pure translation matrix,
no center offset (`transform_matrix = translation_matrix`). -/
def shift_transform_matrix (height_shift_range width_shift_range u1 u2 h w : ℚ) : Mat3 :=
  let tx := np_uniform (-height_shift_range) height_shift_range u1 * h
  let ty := np_uniform (-width_shift_range) width_shift_range u2 * w
  ⟨1, 0, tx, 0, 1, ty, 0, 0, 1⟩

/-- Source `random_sequence_shift(seq, height_shift_range, width_shift_range, row_axis=0,
col_axis=1, channel_axis=2, fill_mode='nearest', cval=0)`: two draws (first for `tx`,
then for `ty`), one translation matrix, applied to every frame. -/
def random_sequence_shift (seq : FrameSeq) (height_shift_range width_shift_range : ℚ)
    (rng : ℕ → ℚ) (pos : ℕ) (row_axis : ℕ := 0) (col_axis : ℕ := 1)
    (channel_axis : ℕ := 2) : FrameSeq × ℕ :=
  let x0 := seq.headD []
  let h := axisDim x0 row_axis
  let w := axisDim x0 col_axis
  let transform_matrix :=
    shift_transform_matrix height_shift_range width_shift_range (rng pos) (rng (pos + 1)) h w
  (seq.map fun x => apply_transform channel_axis transform_matrix x, pos + 2)

/-- The single transform matrix computed by `random_sequence_shear` from the one
uniform draw `u`: `shear = deg2rad(uniform(-shear_range, shear_range))`, shear matrix
`[[1, -sin s, 0], [0, cos s, 0], [0, 0, 1]]`, composed about the frame center. -/
def shear_transform_matrix (nm : NpMath) (shear_range u h w : ℚ) : Mat3 :=
  let shear := np_deg2rad nm (np_uniform (-shear_range) shear_range u)
  let shear_matrix : Mat3 := ⟨1, -nm.sin shear, 0, 0, nm.cos shear, 0, 0, 0, 1⟩
  transform_matrix_offset_center shear_matrix h w

/-- Source `random_sequence_shear(seq, shear_range, row_axis=0, col_axis=1, channel_axis=2,
fill_mode='nearest', cval=0)`: one draw, one matrix, applied to every frame. -/
def random_sequence_shear (nm : NpMath) (seq : FrameSeq) (shear_range : ℚ)
    (rng : ℕ → ℚ) (pos : ℕ) (row_axis : ℕ := 0) (col_axis : ℕ := 1)
    (channel_axis : ℕ := 2) : FrameSeq × ℕ :=
  let x0 := seq.headD []
  let h := axisDim x0 row_axis
  let w := axisDim x0 col_axis
  let transform_matrix := shear_transform_matrix nm shear_range (rng pos) h w
  (seq.map fun x => apply_transform channel_axis transform_matrix x, pos + 1)

/-- The single transform matrix computed by `random_sequence_zoom`:
`zlower, zupper = 1 - zoom_range, 1 + zoom_range`; in the degenerate case
`zlower == 1 and zupper == 1` take `zx = zy = 1` (ignoring the draws), otherwise
`zx, zy = np.random.uniform(zlower, zupper, 2)`; scale matrix composed about the
frame center. -/
def zoom_transform_matrix (zoom_range u1 u2 h w : ℚ) : Mat3 :=
  let zlower := 1 - zoom_range
  let zupper := 1 + zoom_range
  let zx := if zlower = 1 ∧ zupper = 1 then 1 else np_uniform zlower zupper u1
  let zy := if zlower = 1 ∧ zupper = 1 then 1 else np_uniform zlower zupper u2
  let zoom_matrix : Mat3 := ⟨zx, 0, 0, 0, zy, 0, 0, 0, 1⟩
  transform_matrix_offset_center zoom_matrix h w

/-- Source `random_sequence_zoom(seq, zoom_range, row_axis=0, col_axis=1, channel_axis=1,
fill_mode='nearest', cval=0)`: in the degenerate case no randomness is drawn (the
stream position is unchanged), otherwise the pair `zx, zy` is drawn once; one matrix,
applied to every frame.  Note the source's default `channel_axis=1` (unlike the other
three transforms, whose default is 2). -/
def random_sequence_zoom (seq : FrameSeq) (zoom_range : ℚ)
    (rng : ℕ → ℚ) (pos : ℕ) (row_axis : ℕ := 0) (col_axis : ℕ := 1)
    (channel_axis : ℕ := 1) : FrameSeq × ℕ :=
  let x0 := seq.headD []
  let h := axisDim x0 row_axis
  let w := axisDim x0 col_axis
  let transform_matrix := zoom_transform_matrix zoom_range (rng pos) (rng (pos + 1)) h w
  (seq.map fun x => apply_transform channel_axis transform_matrix x,
   if 1 - zoom_range = 1 ∧ 1 + zoom_range = 1 then pos else pos + 2)

/-- Source `sequence_flip_axis(seq, axis)`: per frame, `swapaxes(axis, 0)`, reverse axis 0,
swap back — i.e. reverse the frame along `axis`.  The source only calls it with
`axis = 1` and `axis = 2`. -/
def frame_flip_axis (axis : ℕ) (x : Frame) : Frame :=
  match axis with
  | 0 => x.reverse
  | 1 => x.map fun row => row.reverse
  | _ => x.map fun row => row.map fun chan => chan.reverse

/-- Source `sequence_flip_axis(seq, axis)` over the whole sequence. -/
def sequence_flip_axis (seq : FrameSeq) (axis : ℕ) : FrameSeq :=
  seq.map (frame_flip_axis axis)

/-- The filesystem and image-decoding environment.  `listdir` is `os.listdir` (its
listing order is arbitrary); `load` models the keras `load_img(path, target_size=(h,w))`
followed by `img_to_array`: `some` of the decoded, resized (h, w, C) array, or `none`
when the path is missing or not a decodable image (the cases where `load_img` raises
`IOError`). -/
structure FileSys where
  listdir : String → List String
  load : String → ℕ × ℕ → Option Frame

/-- Error message for a failed image load (`load_img` raising). -/
def ioErrorMsg : String := "IOError: could not read image"

/-- Error message for the unbound `coin_flip` local in `frame_generator`. -/
def nameErrorMsg : String := "NameError: name coin_flip is not defined"

/-- Error message of `random.sample` when the requested size exceeds the population. -/
def valueErrorMsg : String := "ValueError: sample larger than population"

/-- Error message for indexing an empty path list. -/
def indexErrorMsg : String := "IndexError: list index out of range"

/-- The path `os.path.join(sample, "frame%d.png" % i)`. -/
def frame_path (sample : String) (i : ℕ) : String :=
  sample ++ "/frame" ++ toString i ++ ".png"

/-- Source `get_sample_frames(sample)`: `contents = os.listdir(sample)`,
`max_frame = len(contents)`, and one path per index `0..max_frame-1` under the fixed
naming convention — only the entry count of the listing is used, not its order. -/
def get_sample_frames (fs : FileSys) (sample : String) : List String :=
  let contents := fs.listdir sample
  let max_frame := contents.length
  (List.range max_frame).map fun i => frame_path sample i

/-- Source `process_img(frame, input_shape)`: `h_, w_, _ = input_shape`;
`load_img(frame, target_size=(h_, w_))`; `img_to_array`; scale by `1/255`.
Raises `IOError` (here: `Except.error`) when the load fails. -/
def process_img (fs : FileSys) (frame : String) (input_shape : ℕ × ℕ × ℕ) :
    Except String Frame :=
  match fs.load frame (input_shape.1, input_shape.2.1) with
  | none => Except.error ioErrorMsg
  | some img_arr => Except.ok (img_arr.map fun row => row.map fun chan => chan.map fun v => v / 255)

/-- Source `build_image_sequence(frames, input_shape=(224, 224, 3))`: load every path in
order; the first failing load aborts the whole assembly (no skipping). -/
def build_image_sequence (fs : FileSys) (frames : List String)
    (input_shape : ℕ × ℕ × ℕ := (224, 224, 3)) : Except String (List Frame) :=
  match frames with
  | [] => Except.ok []
  | f :: rest =>
    match process_img fs f input_shape with
    | Except.error e => Except.error e
    | Except.ok x =>
      match build_image_sequence fs rest input_shape with
      | Except.error e => Except.error e
      | Except.ok xs => Except.ok (x :: xs)

/-- A Python value as far as the `FrameProcessor.__init__` type asserts can observe it:
`type(v) == int`, `type(v) == float` and `type(v) == bool` are mutually exclusive
(`True` has type `bool`, not `int`, under `type(...) ==`). -/
inductive PyVal : Type
  | pint : ℤ → PyVal
  | pfloat : ℚ → PyVal
  | pbool : Bool → PyVal
deriving DecidableEq, Repr

/-- Python `type(v) == int`. -/
def PyVal.isInt : PyVal → Bool
  | .pint _ => true
  | _ => false

/-- Python `type(v) == float`. -/
def PyVal.isFloat : PyVal → Bool
  | .pfloat _ => true
  | _ => false

/-- Python `type(v) == bool`. -/
def PyVal.isBool : PyVal → Bool
  | .pbool _ => true
  | _ => false

/-- The numeric value Python uses in comparisons (`True == 1`, `False == 0`). -/
def PyVal.toQ : PyVal → ℚ
  | .pint n => (n : ℚ)
  | .pfloat q => q
  | .pbool b => if b then 1 else 0

/-- The `assert` chain of `FrameProcessor.__init__`: construction succeeds iff
`type(rotation_range) == int`; `type(width_shift_range) == float` and
`0 ≤ width_shift_range ≤ 1`; likewise for `height_shift_range`;
`type(zoom_range) == float`; `type(horizontal_flip) == bool`;
`type(vertical_flip) == bool`.  (`shear_range` and `batch_size` carry no assert.) -/
def frame_processor_init_ok (rotation_range width_shift_range height_shift_range
    shear_range zoom_range horizontal_flip vertical_flip : PyVal) : Bool :=
  rotation_range.isInt &&
  (width_shift_range.isFloat &&
    (width_shift_range.toQ ≤ 1 && 0 ≤ width_shift_range.toQ)) &&
  (height_shift_range.isFloat &&
    (height_shift_range.toQ ≤ 1 && 0 ≤ height_shift_range.toQ)) &&
  zoom_range.isFloat &&
  horizontal_flip.isBool &&
  vertical_flip.isBool

/-- The validated state of a constructed `FrameProcessor`: the augmentation
configuration its generators read. -/
structure FrameProcessor where
  rotation_range : ℤ
  width_shift_range : ℚ
  height_shift_range : ℚ
  shear_range : ℚ
  zoom_range : ℚ
  horizontal_flip : Bool
  vertical_flip : Bool
  batch_size : ℕ

/-- The path→label mapping handed to the generators: its key iteration order and the
value lookup of a Python dict. -/
structure PathMap where
  keys : List String
  get : String → Label

/-- Python `random.sample(population, k)`: `k` elements chosen without replacement.  The
index choices are driven by the `pick` stream: each step selects position
`pick n % remaining` among the remaining elements and removes it. -/
def random_sample (pick : ℕ → ℕ) : ℕ → List String → List String
  | 0, _ => []
  | _ + 1, [] => []
  | n + 1, x :: xs =>
    let l := x :: xs
    let i := pick n % l.length
    l.getD i x :: random_sample pick n (l.eraseIdx i)

/-- The geometric part of the augmentation chain of `frame_generator` (lines 336-346),
including the call-site argument order
`random_sequence_shift(sequence, self.width_shift_range, self.height_shift_range)` —
the width range is passed into the function's `height_shift_range` parameter and the
height range into `width_shift_range`. -/
def applyGeometric (cfg : FrameProcessor) (nm : NpMath) (rng : ℕ → ℚ) (pos : ℕ)
    (sequence : FrameSeq) : FrameSeq × ℕ :=
  let sp1 :=
    if ((cfg.rotation_range : ℚ) > 0) then
      random_sequence_rotation nm sequence (cfg.rotation_range : ℚ) rng pos
    else (sequence, pos)
  let sp2 :=
    if (cfg.width_shift_range > 0 ∨ cfg.height_shift_range > 0) then
      random_sequence_shift sp1.1 cfg.width_shift_range cfg.height_shift_range rng sp1.2
    else sp1
  let sp3 :=
    if (cfg.shear_range > 0) then
      random_sequence_shear nm sp2.1 cfg.shear_range rng sp2.2
    else sp2
  if (cfg.zoom_range > 0) then
    random_sequence_zoom sp3.1 cfg.zoom_range rng sp3.2
  else sp3

/-- The flip part of the augmentation chain of `frame_generator` (lines 348-359).
The vertical branch binds `coin_flip = np.random.random_sample() > 0.5` and flips
axis 1 when it is true.  The horizontal branch evaluates
`coin_flip - np.random.random_sample() > 0.5` — an expression, not an assignment: it
consumes one draw, discards the result, and then reads the *existing* `coin_flip`
binding; when `coin_flip` was never bound (vertical flip disabled) this raises
`NameError`. -/
def applyFlips (cfg : FrameProcessor) (rng : ℕ → ℚ) (pos : ℕ) (coin_flip : Option Bool)
    (sequence : FrameSeq) : Except String (FrameSeq × ℕ × Option Bool) :=
  let sv :=
    if cfg.vertical_flip then
      let c := decide (rng pos > 1 / 2)
      (if c then sequence_flip_axis sequence 1 else sequence, pos + 1, some c)
    else (sequence, pos, coin_flip)
  if cfg.horizontal_flip then
    match sv.2.2 with
    | none => Except.error nameErrorMsg
    | some c =>
      Except.ok (if c then sequence_flip_axis sv.1 2 else sv.1, sv.2.1 + 1, some c)
  else Except.ok sv

/-- The whole per-sample augmentation chain of `frame_generator` (lines 335-359). -/
def augmentSample (cfg : FrameProcessor) (nm : NpMath) (rng : ℕ → ℚ) (pos : ℕ)
    (coin_flip : Option Bool) (sequence : FrameSeq) :
    Except String (FrameSeq × ℕ × Option Bool) :=
  let sp := applyGeometric cfg nm rng pos sequence
  applyFlips cfg rng sp.2 coin_flip sp.1

/-- The per-path loop body of one `frame_generator` pull (lines 330-361): for each
selected path, assemble the raw sequence and augment it; the `coin_flip` binding and
the random-stream position persist across iterations. -/
def process_selected (cfg : FrameProcessor) (nm : NpMath) (fs : FileSys) (rng : ℕ → ℚ) :
    List String → ℕ → Option Bool → Except String (List FrameSeq × ℕ × Option Bool)
  | [], pos, coin_flip => Except.ok ([], pos, coin_flip)
  | pth :: rest, pos, coin_flip =>
    match build_image_sequence fs (get_sample_frames fs pth) with
    | Except.error e => Except.error e
    | Except.ok sequence =>
      match augmentSample cfg nm rng pos coin_flip sequence with
      | Except.error e => Except.error e
      | Except.ok spc =>
        match process_selected cfg nm fs rng rest spc.2.1 spc.2.2 with
        | Except.error e => Except.error e
        | Except.ok xpc => Except.ok (spc.1 :: xpc.1, xpc.2.1, xpc.2.2)

/-- One pull of `FrameProcessor.frame_generator` (lines 324-363): sample `batch_size`
distinct paths via `random.sample`, collect their labels in the same order, assemble
and augment each selected path's sequence, and yield `(X, y)`.  The random-stream
position and the `coin_flip` binding persist across pulls and are threaded through. -/
def frame_generator_batch (cfg : FrameProcessor) (nm : NpMath) (fs : FileSys)
    (m : PathMap) (pick : ℕ → ℕ) (rng : ℕ → ℚ) (pos : ℕ) (coin_flip : Option Bool) :
    Except String ((List FrameSeq × List Label) × ℕ × Option Bool) :=
  let sequence_paths := m.keys
  if cfg.batch_size > sequence_paths.length then Except.error valueErrorMsg
  else
    let selected_paths := random_sample pick cfg.batch_size sequence_paths
    let y := selected_paths.map m.get
    match process_selected cfg nm fs rng selected_paths pos coin_flip with
    | Except.error e => Except.error e
    | Except.ok xpc => Except.ok ((xpc.1, y), xpc.2.1, xpc.2.2)

/-- One pull of `FrameProcessor.testing_generator` (lines 290-308) from cursor state
`current`: serve the single sample at `sequence_paths[current]` with its label, no
augmentation, then advance the cursor, wrapping to 0 after the last key.  Returns the
served `(X, y)` pair together with the new cursor. -/
def testing_generator_next (fs : FileSys) (m : PathMap) (current : ℕ) :
    Except String ((List (List Frame) × Label) × ℕ) :=
  let sequence_paths := m.keys
  match sequence_paths.getD current "", decide (current < sequence_paths.length) with
  | _, false => Except.error indexErrorMsg
  | selected_path, true =>
    let y := m.get selected_path
    match build_image_sequence fs (get_sample_frames fs selected_path) with
    | Except.error e => Except.error e
    | Except.ok sequence =>
      let next := current + 1
      Except.ok (([sequence], y), if next = sequence_paths.length then 0 else next)

/-- The `n`-th pull (counting from 0) of `testing_generator` started at cursor
`current`: earlier pulls advance the cursor; a raise during an earlier pull aborts. -/
def testing_generator_pull (fs : FileSys) (m : PathMap) :
    ℕ → ℕ → Except String ((List (List Frame) × Label) × ℕ)
  | 0, current => testing_generator_next fs m current
  | n + 1, current =>
    match testing_generator_next fs m current with
    | Except.error e => Except.error e
    | Except.ok r => testing_generator_pull fs m n r.2

/-- Boolean success test for `Except`. -/
def exceptOk {ε α : Type} : Except ε α → Bool
  | Except.ok _ => true
  | Except.error _ => false

/-- A frame has shape (h, w, c): h rows, every row w cells, every cell c channels. -/
def hasShape (x : Frame) (h w c : ℕ) : Bool :=
  (x.length == h) && x.all fun row => (row.length == w) && row.all fun chan => chan.length == c

lemma exceptOk_iff {ε α : Type} (e : Except ε α) : exceptOk e = true ↔ ∃ a, e = Except.ok a := by
  cases e <;> simp [exceptOk]

lemma nearestIdx_natCast (n : ℕ) : nearestIdx ((n : ℚ)) = (n : ℤ) := by
  unfold nearestIdx
  rw [Int.floor_eq_iff]
  constructor
  · push_cast; linarith
  · push_cast; linarith

lemma clampIdx_natCast (n i : ℕ) (h : i < n) : clampIdx n ((i : ℕ) : ℤ) = i := by
  simp only [clampIdx, Int.toNat_natCast]
  omega

lemma hasShape_len {x : Frame} {h w c : ℕ} (hx : hasShape x h w c = true) :
    x.length = h := by
  simp only [hasShape, Bool.and_eq_true, beq_iff_eq] at hx
  exact hx.1

lemma hasShape_row {x : Frame} {h w c : ℕ} (hx : hasShape x h w c = true) :
    ∀ row ∈ x, row.length = w := by
  simp only [hasShape, Bool.and_eq_true, beq_iff_eq, List.all_eq_true] at hx
  exact fun row hr => (hx.2 row hr).1

lemma hasShape_chan {x : Frame} {h w c : ℕ} (hx : hasShape x h w c = true) :
    ∀ row ∈ x, ∀ chan ∈ row, chan.length = c := by
  simp only [hasShape, Bool.and_eq_true, beq_iff_eq, List.all_eq_true] at hx
  exact fun row hr chan hc => (hx.2 row hr).2 chan hc

lemma get3_eq_getElem {x : Frame} {i j k : ℕ} (hi : i < x.length)
    (hj : j < (x[i]).length) (hk : k < (x[i][j]).length) :
    get3 x i j k = x[i][j][k] := by
  unfold get3
  rw [List.getD_eq_getElem _ _ hi, List.getD_eq_getElem _ _ hj, List.getD_eq_getElem _ _ hk]

/-- Applying the identity affine matrix with either channel-axis convention returns a
well-shaped frame unchanged: the sampling grid coincides with the integer pixel grid,
nearest-neighbour lookup is exact, and no clamping fires. -/
lemma apply_transform_idMat3 (ca : ℕ) (x : Frame) (h w c : ℕ)
    (hx : hasShape x h w c = true) : apply_transform ca idMat3 x = x := by
  have hrow := hasShape_row hx
  have hchan := hasShape_chan hx
  have hhead : ∀ i (hi : i < x.length), (x.headD []).length = x[i].length := by
    intro i hi
    cases x with
    | nil => simp at hi
    | cons r xs =>
      simp only [List.headD_cons]
      rw [hrow r (List.mem_cons_self r xs), hrow _ (List.getElem_mem hi)]
  have hheadc : ∀ i (hi : i < x.length) (j : ℕ) (hj : j < x[i].length),
      ((x.headD []).headD []).length = x[i][j].length := by
    intro i hi j hj
    cases x with
    | nil => simp at hi
    | cons r xs =>
      have h0 : r ∈ r :: xs := List.mem_cons_self r xs
      have hmem : (r :: xs)[i] ∈ r :: xs := List.getElem_mem hi
      have hrlen : r.length = w := hrow r h0
      simp only [List.headD_cons]
      cases r with
      | nil =>
        have := hrow _ hmem
        simp only [List.length_nil] at hrlen
        omega
      | cons q rs =>
        simp only [List.headD_cons]
        rw [hchan _ h0 q (List.mem_cons_self q rs), hchan _ hmem _ (List.getElem_mem hj)]
  unfold apply_transform
  by_cases hca : ca = 1 <;> simp only [hca, if_true, if_false, reduceIte]
  · -- channel_axis = 1 : slices are the (H, C) planes
    apply List.ext_getElem
    · simp [listMap3]
    · intro i hi1 hi2
      have hi : i < x.length := by simpa [listMap3] using hi1
      simp only [listMap3, List.getElem_map, List.getElem_range]
      apply List.ext_getElem
      · simp only [List.length_map, List.length_range]
        exact hhead i hi
      · intro j hj1 hj2
        have hjW : j < (x.headD []).length := by simpa using hj1
        have hjx : j < x[i].length := (hhead i hi) ▸ hjW
        simp only [List.getElem_map, List.getElem_range]
        apply List.ext_getElem
        · simp only [List.length_map, List.length_range]
          exact hheadc i hi j hjx
        · intro k hk1 hk2
          have hkC : k < ((x.headD []).headD []).length := by simpa using hk1
          have hkx : k < x[i][j].length := (hheadc i hi j hjx) ▸ hkC
          simp only [List.getElem_map, List.getElem_range]
          have e1 : idMat3.m00 * (i : ℚ) + idMat3.m01 * (k : ℚ) + idMat3.m02 = (i : ℚ) := by
            simp [idMat3]
          have e2 : idMat3.m10 * (i : ℚ) + idMat3.m11 * (k : ℚ) + idMat3.m12 = (k : ℚ) := by
            simp [idMat3]
          rw [e1, e2, nearestIdx_natCast, nearestIdx_natCast, clampIdx_natCast _ _ hi,
            clampIdx_natCast _ _ hkC]
          exact get3_eq_getElem hi hjx hkx
  · -- channel_axis = 2 : slices are the (H, W) planes
    apply List.ext_getElem
    · simp [listMap3]
    · intro i hi1 hi2
      have hi : i < x.length := by simpa [listMap3] using hi1
      simp only [listMap3, List.getElem_map, List.getElem_range]
      apply List.ext_getElem
      · simp only [List.length_map, List.length_range]
        exact hhead i hi
      · intro j hj1 hj2
        have hjW : j < (x.headD []).length := by simpa using hj1
        have hjx : j < x[i].length := (hhead i hi) ▸ hjW
        simp only [List.getElem_map, List.getElem_range]
        apply List.ext_getElem
        · simp only [List.length_map, List.length_range]
          exact hheadc i hi j hjx
        · intro k hk1 hk2
          have hkC : k < ((x.headD []).headD []).length := by simpa using hk1
          have hkx : k < x[i][j].length := (hheadc i hi j hjx) ▸ hkC
          simp only [List.getElem_map, List.getElem_range]
          have e1 : idMat3.m00 * (i : ℚ) + idMat3.m01 * (j : ℚ) + idMat3.m02 = (i : ℚ) := by
            simp [idMat3]
          have e2 : idMat3.m10 * (i : ℚ) + idMat3.m11 * (j : ℚ) + idMat3.m12 = (j : ℚ) := by
            simp [idMat3]
          rw [e1, e2, nearestIdx_natCast, nearestIdx_natCast, clampIdx_natCast _ _ hi,
            clampIdx_natCast _ _ hjW]
          exact get3_eq_getElem hi hjx hkx

/-- In the degenerate case `zoom_range = 0`, the zoom matrix is exactly the identity:
`zx = zy = 1` regardless of the (unused) draws, and the center-offset composition of
the identity is the identity. -/
lemma zoom_transform_matrix_zero (u1 u2 h w : ℚ) :
    zoom_transform_matrix 0 u1 u2 h w = idMat3 := by
  simp only [zoom_transform_matrix, transform_matrix_offset_center, Mat3.mul, idMat3]
  norm_num
  constructor <;> ring

/-- C6: for every non-empty sequence of identically-shaped frames,
`random_sequence_zoom` with `zoom_range = 0.0` is the identity: every frame of the
result is exactly the input frame, and no random numbers are drawn (the random-stream
position is returned unchanged).  Non-emptiness is assumed because the source reads
`seq[0].shape`. -/
theorem c6_zoom_zero_is_identity (seq : FrameSeq) (h w c : ℕ)
    (hne : seq ≠ [])
    (hshape : ∀ x ∈ seq, hasShape x h w c = true)
    (rng : ℕ → ℚ) (pos : ℕ) :
    random_sequence_zoom seq 0 rng pos = (seq, pos) := by
  unfold random_sequence_zoom
  dsimp only
  rw [zoom_transform_matrix_zero]
  have hmap : seq.map (fun x => apply_transform 1 idMat3 x) = seq.map id :=
    List.map_congr_left fun x hx => apply_transform_idMat3 1 x h w c (hshape x hx)
  rw [hmap, List.map_id]
  norm_num

/-- Witness for C6 at a concrete two-frame sequence of 1×1×1 frames. -/
theorem c6_zoom_zero_is_identity_witness :
    ([[[[(1 : ℚ)]]], [[[(2 : ℚ)]]]] : FrameSeq) ≠ [] ∧
    (∀ x ∈ ([[[[(1 : ℚ)]]], [[[(2 : ℚ)]]]] : FrameSeq), hasShape x 1 1 1 = true) ∧
    random_sequence_zoom [[[[(1 : ℚ)]]], [[[(2 : ℚ)]]]] 0 (fun _ => 1 / 3) 5 =
      ([[[[(1 : ℚ)]]], [[[(2 : ℚ)]]]], 5) :=
  ⟨by decide, by decide,
    c6_zoom_zero_is_identity _ 1 1 1 (by decide) (by decide) _ _⟩

/-- C1: each single invocation of `random_sequence_rotation`, `random_sequence_shift`,
`random_sequence_shear` and `random_sequence_zoom` draws its random parameter(s)
exactly once (its consumption of the random stream is a fixed count, independent of
the number of frames: 1, 2, 1, and 2 — or 0 in zoom's drawless degenerate case) and
applies one identical affine transform matrix to every frame of the sequence: for any
two frame positions `i`, `j` of the input, the output at those positions is
`apply_transform` of the *same* matrix applied to the input frame at that position. -/
theorem c1_one_draw_one_matrix_per_invocation (nm : NpMath) (seq : FrameSeq)
    (rng : ℕ → ℚ) (pos : ℕ)
    (rotation_range height_shift_range width_shift_range shear_range zoom_range : ℚ)
    (i j : ℕ) :
    ((random_sequence_rotation nm seq rotation_range rng pos).1[i]? =
        (seq[i]?).map (apply_transform 2 (rotation_transform_matrix nm rotation_range
          (rng pos) (axisDim (seq.headD []) 0) (axisDim (seq.headD []) 1)))
      ∧ (random_sequence_rotation nm seq rotation_range rng pos).1[j]? =
        (seq[j]?).map (apply_transform 2 (rotation_transform_matrix nm rotation_range
          (rng pos) (axisDim (seq.headD []) 0) (axisDim (seq.headD []) 1)))
      ∧ (random_sequence_rotation nm seq rotation_range rng pos).2 = pos + 1)
    ∧
    ((random_sequence_shift seq height_shift_range width_shift_range rng pos).1[i]? =
        (seq[i]?).map (apply_transform 2 (shift_transform_matrix height_shift_range
          width_shift_range (rng pos) (rng (pos + 1))
          (axisDim (seq.headD []) 0) (axisDim (seq.headD []) 1)))
      ∧ (random_sequence_shift seq height_shift_range width_shift_range rng pos).1[j]? =
        (seq[j]?).map (apply_transform 2 (shift_transform_matrix height_shift_range
          width_shift_range (rng pos) (rng (pos + 1))
          (axisDim (seq.headD []) 0) (axisDim (seq.headD []) 1)))
      ∧ (random_sequence_shift seq height_shift_range width_shift_range rng pos).2 = pos + 2)
    ∧
    ((random_sequence_shear nm seq shear_range rng pos).1[i]? =
        (seq[i]?).map (apply_transform 2 (shear_transform_matrix nm shear_range
          (rng pos) (axisDim (seq.headD []) 0) (axisDim (seq.headD []) 1)))
      ∧ (random_sequence_shear nm seq shear_range rng pos).1[j]? =
        (seq[j]?).map (apply_transform 2 (shear_transform_matrix nm shear_range
          (rng pos) (axisDim (seq.headD []) 0) (axisDim (seq.headD []) 1)))
      ∧ (random_sequence_shear nm seq shear_range rng pos).2 = pos + 1)
    ∧
    ((random_sequence_zoom seq zoom_range rng pos).1[i]? =
        (seq[i]?).map (apply_transform 1 (zoom_transform_matrix zoom_range
          (rng pos) (rng (pos + 1)) (axisDim (seq.headD []) 0) (axisDim (seq.headD []) 1)))
      ∧ (random_sequence_zoom seq zoom_range rng pos).1[j]? =
        (seq[j]?).map (apply_transform 1 (zoom_transform_matrix zoom_range
          (rng pos) (rng (pos + 1)) (axisDim (seq.headD []) 0) (axisDim (seq.headD []) 1)))
      ∧ (random_sequence_zoom seq zoom_range rng pos).2 =
          (if 1 - zoom_range = 1 ∧ 1 + zoom_range = 1 then pos else pos + 2)) := by
  refine ⟨⟨?_, ?_, rfl⟩, ⟨?_, ?_, rfl⟩, ⟨?_, ?_, rfl⟩, ⟨?_, ?_, rfl⟩⟩ <;>
    simp [random_sequence_rotation, random_sequence_shift, random_sequence_shear,
      random_sequence_zoom, List.getElem?_map]

/-- A concrete `NpMath` instance for witnesses (the claims hold for every instance). -/
def nmTriv : NpMath := ⟨fun _ => 0, fun _ => 0, 0⟩

/-- C10: in the augmentation chain run by `frame_generator` (which calls every
transform with its default axes), the zoom step applies its affine transform through
`apply_transform` with `channel_axis = 1` — the same index as the column axis — while
the rotation, shift and shear steps apply theirs with `channel_axis = 2`.  Stated on
`augmentSample` with exactly one transform enabled per conjunct. -/
theorem c10_zoom_channel_axis_one_others_two (nm : NpMath) (rng : ℕ → ℚ) (pos : ℕ)
    (coin : Option Bool) (seq : FrameSeq) (bs : ℕ) (q : ℚ) (hq : 0 < q)
    (n : ℤ) (hn : 0 < n) :
    augmentSample ⟨n, 0, 0, 0, 0, false, false, bs⟩ nm rng pos coin seq =
      Except.ok (seq.map (apply_transform 2 (rotation_transform_matrix nm (n : ℚ) (rng pos)
        (axisDim (seq.headD []) 0) (axisDim (seq.headD []) 1))), pos + 1, coin)
    ∧ augmentSample ⟨0, q, 0, 0, 0, false, false, bs⟩ nm rng pos coin seq =
      Except.ok (seq.map (apply_transform 2 (shift_transform_matrix q 0 (rng pos)
        (rng (pos + 1)) (axisDim (seq.headD []) 0) (axisDim (seq.headD []) 1))), pos + 2, coin)
    ∧ augmentSample ⟨0, 0, 0, q, 0, false, false, bs⟩ nm rng pos coin seq =
      Except.ok (seq.map (apply_transform 2 (shear_transform_matrix nm q (rng pos)
        (axisDim (seq.headD []) 0) (axisDim (seq.headD []) 1))), pos + 1, coin)
    ∧ augmentSample ⟨0, 0, 0, 0, q, false, false, bs⟩ nm rng pos coin seq =
      Except.ok (seq.map (apply_transform 1 (zoom_transform_matrix q (rng pos)
        (rng (pos + 1)) (axisDim (seq.headD []) 0) (axisDim (seq.headD []) 1))), pos + 2, coin) := by
  have hnq : ((n : ℚ)) > 0 := by exact_mod_cast hn
  have hz : ¬((1 : ℚ) - q = 1 ∧ (1 : ℚ) + q = 1) := by
    intro hcontra
    have := hcontra.1
    linarith
  refine ⟨?_, ?_, ?_, ?_⟩ <;>
    simp [augmentSample, applyGeometric, applyFlips, random_sequence_rotation,
      random_sequence_shift, random_sequence_shear, random_sequence_zoom,
      hnq, hq, hz, hq.ne', lt_self_iff_false, lt_irrefl]

/-- Witness for C10 at concrete inputs. -/
theorem c10_zoom_channel_axis_one_others_two_witness :
    (0 : ℚ) < 1 ∧ (0 : ℤ) < 1 ∧
    (augmentSample ⟨1, 0, 0, 0, 0, false, false, 4⟩ nmTriv (fun _ => 0) 0 none [] =
      Except.ok (([] : FrameSeq).map (apply_transform 2 (rotation_transform_matrix nmTriv
        ((1 : ℤ) : ℚ) 0 (axisDim (([] : FrameSeq).headD []) 0)
        (axisDim (([] : FrameSeq).headD []) 1))), 0 + 1, none)
    ∧ augmentSample ⟨0, 1, 0, 0, 0, false, false, 4⟩ nmTriv (fun _ => 0) 0 none [] =
      Except.ok (([] : FrameSeq).map (apply_transform 2 (shift_transform_matrix 1 0 0 0
        (axisDim (([] : FrameSeq).headD []) 0) (axisDim (([] : FrameSeq).headD []) 1))),
        0 + 2, none)
    ∧ augmentSample ⟨0, 0, 0, 1, 0, false, false, 4⟩ nmTriv (fun _ => 0) 0 none [] =
      Except.ok (([] : FrameSeq).map (apply_transform 2 (shear_transform_matrix nmTriv 1 0
        (axisDim (([] : FrameSeq).headD []) 0) (axisDim (([] : FrameSeq).headD []) 1))),
        0 + 1, none)
    ∧ augmentSample ⟨0, 0, 0, 0, 1, false, false, 4⟩ nmTriv (fun _ => 0) 0 none [] =
      Except.ok (([] : FrameSeq).map (apply_transform 1 (zoom_transform_matrix 1 0 0
        (axisDim (([] : FrameSeq).headD []) 0) (axisDim (([] : FrameSeq).headD []) 1))),
        0 + 2, none)) :=
  ⟨by norm_num, by decide,
    c10_zoom_channel_axis_one_others_two nmTriv (fun _ => 0) 0 none [] 4 1 (by norm_num)
      1 (by decide)⟩

/-- A `FrameProcessor` configuration with only `horizontal_flip` enabled. -/
def cfgHFlipOnly : FrameProcessor := ⟨0, 0, 0, 0, 0, true, false, 4⟩

/-- A `FrameProcessor` configuration with both flips enabled. -/
def cfgBothFlips : FrameProcessor := ⟨0, 0, 0, 0, 0, true, true, 4⟩

/-- A draw stream whose first draw is 9/10 (vertical coin true) and whose second draw
is 1/10 (a fresh horizontal coin would be false). -/
def rngC3 : ℕ → ℚ := fun n => if n = 0 then 9 / 10 else 1 / 10

set_option maxHeartbeats 1600000 in
/-- C3 (code bug): the horizontal-flip branch of `frame_generator` executes
`coin_flip - np.random.random_sample() > 0.5` — a discarded comparison expression
where an assignment was intended — so no fresh horizontal coin is ever bound.
First conjunct: with `horizontal_flip=True, vertical_flip=False`, processing any
sample raises `NameError` (`coin_flip` was never assigned) instead of flipping with
probability 0.5.  Second conjunct: with both flips enabled, the horizontal decision
reuses the vertical coin — here the vertical draw 9/10 makes the coin true and the
sequence is column/channel-flipped even though the draw consumed by the horizontal
branch, 1/10, would have made a fresh coin false. -/
theorem c3_horizontal_coin_flip_never_assigned :
    augmentSample cfgHFlipOnly nmTriv (fun _ => 0) 0 none [[[[(1 : ℚ), 2]]]] =
      Except.error nameErrorMsg
    ∧ augmentSample cfgBothFlips nmTriv rngC3 0 none [[[[(1 : ℚ), 2]]]] =
        Except.ok ([[[[(2 : ℚ), 1]]]], 2, some true)
    ∧ ¬(rngC3 1 > 1 / 2) := by
  refine ⟨rfl, ?_, ?_⟩
  · norm_num [cfgBothFlips, augmentSample, applyGeometric, applyFlips,
      sequence_flip_axis, frame_flip_axis, rngC3]
  · norm_num [rngC3]

/-- A `FrameProcessor` configuration with `width_shift_range = 1` and
`height_shift_range = 0` (only the shift step enabled). -/
def cfgShiftOnly : FrameProcessor := ⟨0, 1, 0, 0, 0, false, false, 4⟩

/-- A single 2×2×1 frame whose two rows differ and whose columns are constant:
any row translation changes it, any column translation leaves it unchanged. -/
def frameC4 : Frame := [[[0], [0]], [[1], [1]]]

set_option maxHeartbeats 1600000 in
/-- C4 (code bug): `frame_generator` calls
`random_sequence_shift(sequence, self.width_shift_range, self.height_shift_range)`
but the function's signature is `(seq, height_shift_range, width_shift_range, ...)`,
so the two ranges are passed in swapped order.  With `height_shift_range = 0` and
`width_shift_range = 1`, the claim forces the row translation `tx = 0` (rows must not
move); the code instead draws `tx` from the width range: with draw 3/4 the applied
matrix is the translation `⟨1, 0, 1, 0, 1, 0, 0, 0, 1⟩` (`tx = 1`, `ty = 0`) and the
rows of the frame visibly move. -/
theorem c4_shift_ranges_swapped_at_call_site :
    augmentSample cfgShiftOnly nmTriv (fun _ => 3 / 4) 0 none [frameC4] =
      Except.ok ([[[[(1 : ℚ)], [1]], [[1], [1]]]], 2, none)
    ∧ cfgShiftOnly.height_shift_range = 0
    ∧ ([[[[(1 : ℚ)], [1]], [[1], [1]]]] : FrameSeq) ≠ [frameC4] := by
  have hmat : shift_transform_matrix 1 0 (3 / 4) (3 / 4) (axisDim frameC4 0)
      (axisDim frameC4 1) = ⟨1, 0, 1, 0, 1, 0, 0, 0, 1⟩ := by
    norm_num [shift_transform_matrix, np_uniform, axisDim, shapeOf, frameC4]
  have happ : apply_transform 2 ⟨1, 0, 1, 0, 1, 0, 0, 0, 1⟩ frameC4 =
      [[[1], [1]], [[1], [1]]] := by
    norm_num [apply_transform, frameC4, listMap3, List.range_succ, nearestIdx,
      clampIdx, get3]
  refine ⟨?_, rfl, by decide⟩
  norm_num [cfgShiftOnly, augmentSample, applyGeometric, applyFlips,
    random_sequence_shift, hmat, happ]

lemma pyval_isInt_iff (v : PyVal) : v.isInt = true ↔ ∃ n : ℤ, v = PyVal.pint n := by
  cases v <;> simp [PyVal.isInt]

lemma pyval_isFloat_iff (v : PyVal) : v.isFloat = true ↔ ∃ q : ℚ, v = PyVal.pfloat q := by
  cases v <;> simp [PyVal.isFloat]

lemma pyval_isBool_iff (v : PyVal) : v.isBool = true ↔ ∃ b : Bool, v = PyVal.pbool b := by
  cases v <;> simp [PyVal.isBool]

lemma pyval_float_range_iff (v : PyVal) :
    (v.isFloat = true ∧ v.toQ ≤ 1 ∧ 0 ≤ v.toQ) ↔
      ∃ q : ℚ, v = PyVal.pfloat q ∧ 0 ≤ q ∧ q ≤ 1 := by
  cases v <;> simp [PyVal.isFloat, PyVal.toQ] <;> tauto

/-- C5 counterexample: the claim says construction fails for every configuration with
negative `rotation_range`, but `FrameProcessor.__init__` only asserts
`type(rotation_range) == int` — it accepts `rotation_range = -3` (all other arguments
valid), so the validation succeeds where the claim requires failure.  (Likewise no
sign check is performed on `zoom_range`.) -/
theorem c5_counterexample_negative_rotation_accepted :
    frame_processor_init_ok (PyVal.pint (-3)) (PyVal.pfloat 0) (PyVal.pfloat 0)
      (PyVal.pfloat 0) (PyVal.pfloat 0) (PyVal.pbool false) (PyVal.pbool false) = true := by
  decide

/-- C5 (amended): construction of a `FrameProcessor` succeeds exactly when
`rotation_range` is an `int` (of either sign), `width_shift_range` and
`height_shift_range` are `float`s inside `[0, 1]`, `zoom_range` is a `float` (of
either sign), and both flip flags are `bool`s; `shear_range` is never validated.
Negativity of `rotation_range` and `zoom_range` is *not* rejected, contrary to the
original claim, and non-`float` (e.g. integer) shift ranges are rejected even when
their value lies in `[0, 1]`. -/
theorem c5_constructor_validation (rotation_range width_shift_range height_shift_range
    shear_range zoom_range horizontal_flip vertical_flip : PyVal) :
    frame_processor_init_ok rotation_range width_shift_range height_shift_range
      shear_range zoom_range horizontal_flip vertical_flip = true ↔
      ((∃ n : ℤ, rotation_range = PyVal.pint n)
        ∧ (∃ q : ℚ, width_shift_range = PyVal.pfloat q ∧ 0 ≤ q ∧ q ≤ 1)
        ∧ (∃ q : ℚ, height_shift_range = PyVal.pfloat q ∧ 0 ≤ q ∧ q ≤ 1)
        ∧ (∃ q : ℚ, zoom_range = PyVal.pfloat q)
        ∧ (∃ b : Bool, horizontal_flip = PyVal.pbool b)
        ∧ (∃ b : Bool, vertical_flip = PyVal.pbool b)) := by
  unfold frame_processor_init_ok
  simp only [Bool.and_eq_true, decide_eq_true_eq]
  rw [pyval_isInt_iff, pyval_float_range_iff, pyval_float_range_iff, pyval_isFloat_iff,
    pyval_isBool_iff, pyval_isBool_iff]
  tauto

lemma perm_getElem_cons_eraseIdx :
    ∀ (l : List String) (i : ℕ) (h : i < l.length), List.Perm l (l[i] :: l.eraseIdx i)
  | x :: xs, 0, _ => by simp
  | x :: xs, i + 1, h => by
    have hi : i < xs.length := by simpa using h
    have ih := perm_getElem_cons_eraseIdx xs i hi
    have hstep : List.Perm (x :: xs) (xs[i] :: x :: xs.eraseIdx i) :=
      Trans.trans (ih.cons x) (List.Perm.swap _ _ _)
    simpa using hstep

lemma random_sample_length (pick : ℕ → ℕ) :
    ∀ (k : ℕ) (xs : List String), k ≤ xs.length → (random_sample pick k xs).length = k
  | 0, _, _ => rfl
  | k + 1, [], h => by simp at h
  | k + 1, x :: xs, h => by
    have hi : pick k % (x :: xs).length < (x :: xs).length :=
      Nat.mod_lt _ (Nat.succ_pos xs.length)
    have hlen : ((x :: xs).eraseIdx (pick k % (x :: xs).length)).length = xs.length := by
      rw [List.length_eraseIdx, if_pos hi]
      simp
    have hk : k ≤ ((x :: xs).eraseIdx (pick k % (x :: xs).length)).length := by
      rw [hlen]
      simpa using h
    simp only [random_sample]
    rw [List.length_cons, random_sample_length pick k _ hk]

lemma random_sample_subset (pick : ℕ → ℕ) :
    ∀ (k : ℕ) (xs : List String), ∀ p ∈ random_sample pick k xs, p ∈ xs
  | 0, _, p, hp => by simp [random_sample] at hp
  | k + 1, [], p, hp => by simp [random_sample] at hp
  | k + 1, x :: xs, p, hp => by
    have hi : pick k % (x :: xs).length < (x :: xs).length := Nat.mod_lt _ (Nat.succ_pos xs.length)
    simp only [random_sample, List.mem_cons] at hp
    rcases hp with hp | hp
    · rw [hp, List.getD_eq_getElem _ _ hi]
      exact List.getElem_mem hi
    · exact (List.eraseIdx_sublist _ _).mem (random_sample_subset pick k _ p hp)

lemma random_sample_nodup (pick : ℕ → ℕ) :
    ∀ (k : ℕ) (xs : List String), xs.Nodup → (random_sample pick k xs).Nodup
  | 0, _, _ => by simp [random_sample]
  | k + 1, [], _ => by simp [random_sample]
  | k + 1, x :: xs, hnd => by
    have hi : pick k % (x :: xs).length < (x :: xs).length := Nat.mod_lt _ (Nat.succ_pos xs.length)
    have hperm := perm_getElem_cons_eraseIdx (x :: xs) _ hi
    have hnd2 : ((x :: xs)[pick k % (x :: xs).length] ::
        (x :: xs).eraseIdx (pick k % (x :: xs).length)).Nodup := hperm.nodup hnd
    rw [List.nodup_cons] at hnd2
    simp only [random_sample]
    rw [List.nodup_cons]
    constructor
    · rw [List.getD_eq_getElem _ _ hi]
      intro hmem
      exact hnd2.1 (random_sample_subset pick k _ _ hmem)
    · exact random_sample_nodup pick k _ hnd2.2

/-- The augmentation chain of `frame_generator` never raises as long as
`horizontal_flip` is not enabled without `vertical_flip` (the only raise is the
`NameError` on the unbound `coin_flip`). -/
lemma augmentSample_ok (cfg : FrameProcessor) (nm : NpMath) (rng : ℕ → ℚ) (pos : ℕ)
    (coin : Option Bool) (seq : FrameSeq)
    (hfl : cfg.horizontal_flip = true → cfg.vertical_flip = true) :
    ∃ out pos2 coin2, augmentSample cfg nm rng pos coin seq = Except.ok (out, pos2, coin2) := by
  cases hh : cfg.horizontal_flip with
  | false =>
    cases hv : cfg.vertical_flip with
    | false =>
      exact ⟨_, _, _, by
        simp only [augmentSample, applyFlips, hh, hv, Bool.false_eq_true, if_false,
          reduceIte]
        rfl⟩
    | true =>
      exact ⟨_, _, _, by
        simp only [augmentSample, applyFlips, hh, hv, Bool.false_eq_true, if_false,
          if_true, reduceIte]
        rfl⟩
  | true =>
    have hv : cfg.vertical_flip = true := hfl hh
    exact ⟨_, _, _, by
      simp only [augmentSample, applyFlips, hh, hv, if_true, reduceIte]
      rfl⟩

lemma process_selected_ok (cfg : FrameProcessor) (nm : NpMath) (fs : FileSys)
    (rng : ℕ → ℚ) (hfl : cfg.horizontal_flip = true → cfg.vertical_flip = true)
    (sel : List String) :
    ∀ (pos : ℕ) (coin : Option Bool),
      (∀ p ∈ sel, exceptOk (build_image_sequence fs (get_sample_frames fs p)) = true) →
      ∃ X pos2 coin2,
        process_selected cfg nm fs rng sel pos coin = Except.ok (X, pos2, coin2)
        ∧ X.length = sel.length
        ∧ ∀ i, i < sel.length → ∃ p s ps pc ps2 pc2 xi,
            sel[i]? = some p
            ∧ build_image_sequence fs (get_sample_frames fs p) = Except.ok s
            ∧ augmentSample cfg nm rng ps pc s = Except.ok (xi, ps2, pc2)
            ∧ X[i]? = some xi := by
  induction sel with
  | nil =>
    intro pos coin _
    exact ⟨[], pos, coin, rfl, rfl, by simp⟩
  | cons p rest ih =>
    intro pos coin hp
    obtain ⟨s, hs⟩ := (exceptOk_iff _).mp (hp p (List.mem_cons_self p rest))
    obtain ⟨xi, ps2, pc2, haug⟩ := augmentSample_ok cfg nm rng pos coin s hfl
    obtain ⟨X, pos3, coin3, hps, hlen, hidx⟩ :=
      ih ps2 pc2 fun q hq => hp q (List.mem_cons_of_mem _ hq)
    refine ⟨xi :: X, pos3, coin3, ?_, by simp [hlen], ?_⟩
    · simp [process_selected, hs, haug, hps]
    · intro i hi
      match i with
      | 0 => exact ⟨p, s, pos, coin, ps2, pc2, xi, by simp, hs, haug, by simp⟩
      | Nat.succ i2 =>
        obtain ⟨q, s2, ps, pc, ps3, pc3, xj, hq1, hq2, hq3, hq4⟩ :=
          hidx i2 (by simpa using hi)
        exact ⟨q, s2, ps, pc, ps3, pc3, xj, by simpa using hq1, hq2, hq3, by simpa using hq4⟩

lemma mem_of_getElem_opt {α : Type} {l : List α} {i : ℕ} {a : α}
    (h : l[i]? = some a) : a ∈ l := by
  have hi : i < l.length := by
    by_contra hge
    rw [List.getElem?_eq_none (by omega)] at h
    exact Option.noConfusion h
  rw [List.getElem?_eq_getElem hi] at h
  rw [show a = l.get ⟨i, hi⟩ from (Option.some.inj h).symm]
  exact List.getElem_mem hi

/-- A successful assembly always has one frame per requested path: the loop never
skips a failing load (it raises instead), so an `ok` result is never truncated. -/
lemma build_image_sequence_ok_length (fs : FileSys) (frames : List String)
    (shape : ℕ × ℕ × ℕ) :
    ∀ s, build_image_sequence fs frames shape = Except.ok s → s.length = frames.length := by
  induction frames with
  | nil =>
    intro s hs
    simp only [build_image_sequence, Except.ok.injEq] at hs
    rw [← hs]
    rfl
  | cons f rest ih =>
    intro s hs
    cases hload : process_img fs f shape with
    | error e => simp [build_image_sequence, hload] at hs
    | ok x =>
      cases hrest : build_image_sequence fs rest shape with
      | error e => simp [build_image_sequence, hload, hrest] at hs
      | ok xs =>
        simp only [build_image_sequence, hload, hrest, Except.ok.injEq] at hs
        rw [← hs]
        simp [ih xs hrest]

/-- A missing (or undecodable) frame file among the requested paths makes the whole
assembly return the `IOError`, never a shorter sequence. -/
lemma build_image_sequence_missing_error (fs : FileSys) (frames : List String)
    (shape : ℕ × ℕ × ℕ) :
    (∃ p ∈ frames, fs.load p (shape.1, shape.2.1) = none) →
    build_image_sequence fs frames shape = Except.error ioErrorMsg := by
  induction frames with
  | nil =>
    rintro ⟨p, hp, _⟩
    simp at hp
  | cons f rest ih =>
    rintro ⟨p, hp, hnone⟩
    rcases List.mem_cons.mp hp with rfl | hp2
    · simp [build_image_sequence, process_img, hnone]
    · cases hload : fs.load f (shape.1, shape.2.1) with
      | none => simp [build_image_sequence, process_img, hload]
      | some img =>
        simp [build_image_sequence, process_img, hload, ih ⟨p, hp2, hnone⟩]

/-- C2 (amended): for every mapping with at least `batch_size` distinct keys whose
sample directories are non-empty and whose samples all load, and every configuration
in which `horizontal_flip` is not enabled without `vertical_flip` (see C3 for the code
bug that makes that combination raise), each pull of `frame_generator` yields `X` with
exactly `batch_size` sequences and `y` with exactly `batch_size` labels; the selected
paths are distinct members of the mapping's keys (sampling without replacement — no
path occurs twice in one batch), `y[i]` is the label of the `i`-th selected path, and
`X[i]` is the augmented assembly of that same path, each assembled sequence being
non-empty (so the transforms' `seq[0].shape` reads are in bounds).  Non-emptiness of
the sample directories is required because the source's transforms index `seq[0]`,
which raises `IndexError` on an empty assembled sequence. -/
theorem c2_batch_size_alignment_no_replacement (cfg : FrameProcessor) (nm : NpMath)
    (fs : FileSys) (m : PathMap) (pick : ℕ → ℕ) (rng : ℕ → ℚ) (pos : ℕ)
    (coin : Option Bool)
    (hbs : cfg.batch_size ≤ m.keys.length)
    (hnd : m.keys.Nodup)
    (hfl : cfg.horizontal_flip = true → cfg.vertical_flip = true)
    (hdir : ∀ p ∈ m.keys, fs.listdir p ≠ [])
    (hload : ∀ p ∈ m.keys, exceptOk (build_image_sequence fs (get_sample_frames fs p)) = true) :
    ∃ X y pos2 coin2,
      frame_generator_batch cfg nm fs m pick rng pos coin = Except.ok ((X, y), pos2, coin2)
      ∧ X.length = cfg.batch_size
      ∧ y.length = cfg.batch_size
      ∧ (random_sample pick cfg.batch_size m.keys).Nodup
      ∧ (∀ p ∈ random_sample pick cfg.batch_size m.keys, p ∈ m.keys)
      ∧ y = (random_sample pick cfg.batch_size m.keys).map m.get
      ∧ ∀ i, i < cfg.batch_size → ∃ p s ps pc ps2 pc2 xi,
          (random_sample pick cfg.batch_size m.keys)[i]? = some p
          ∧ build_image_sequence fs (get_sample_frames fs p) = Except.ok s
          ∧ s ≠ []
          ∧ augmentSample cfg nm rng ps pc s = Except.ok (xi, ps2, pc2)
          ∧ X[i]? = some xi := by
  have hsub : ∀ p ∈ random_sample pick cfg.batch_size m.keys, p ∈ m.keys :=
    random_sample_subset pick cfg.batch_size m.keys
  have hslen : (random_sample pick cfg.batch_size m.keys).length = cfg.batch_size :=
    random_sample_length pick cfg.batch_size m.keys hbs
  obtain ⟨X, pos2, coin2, hps, hXlen, hidx⟩ :=
    process_selected_ok cfg nm fs rng hfl (random_sample pick cfg.batch_size m.keys)
      pos coin fun p hp => hload p (hsub p hp)
  refine ⟨X, (random_sample pick cfg.batch_size m.keys).map m.get, pos2, coin2,
    ?_, by omega, by simp [hslen], random_sample_nodup pick cfg.batch_size m.keys hnd,
    hsub, rfl, ?_⟩
  · simp only [frame_generator_batch, gt_iff_lt, Nat.not_lt.mpr hbs, if_false, hps, reduceIte]
  · intro i hi
    obtain ⟨p, s, ps, pc, ps2, pc2, xi, hp1, hp2, hp3, hp4⟩ := hidx i (by omega)
    have hpmem : p ∈ m.keys := hsub p (mem_of_getElem_opt hp1)
    have hlen2 := build_image_sequence_ok_length fs (get_sample_frames fs p) _ s hp2
    have hcount : (get_sample_frames fs p).length = (fs.listdir p).length := by
      simp [get_sample_frames]
    have hne : s ≠ [] := by
      intro hnil
      rw [hnil] at hlen2
      simp only [List.length_nil] at hlen2
      have h0 : (fs.listdir p).length = 0 := by
        rw [hcount] at hlen2
        omega
      exact hdir p hpmem (List.length_eq_zero.mp h0)
    exact ⟨p, s, ps, pc, ps2, pc2, xi, hp1, hp2, hne, hp3, hp4⟩

/-- A filesystem whose every directory lists one entry and whose every load succeeds
with a 1×1×1 image. -/
def fsOne : FileSys := ⟨fun _ => ["f0"], fun _ _ => some [[[0]]]⟩

/-- A two-key mapping for the C2 witness. -/
def mTwo : PathMap := ⟨["a", "b"], fun p => if p = "a" then (70, 16) else (165 / 2, 91 / 5)⟩

/-- A no-augmentation configuration with `batch_size = 2`. -/
def cfgPlainTwo : FrameProcessor := ⟨0, 0, 0, 0, 0, false, false, 2⟩

/-- A one-key mapping for the C2 counterexample. -/
def mOne : PathMap := ⟨["a"], fun _ => (70, 16)⟩

/-- Configuration with `batch_size = 1`, `horizontal_flip` enabled, `vertical_flip` disabled. -/
def cfgHFlipBatchOne : FrameProcessor := ⟨0, 0, 0, 0, 0, true, false, 1⟩

/-- C2 counterexample: with the valid configuration `horizontal_flip=True,
`vertical_flip=False` and `batch_size = 1` over a 1-key mapping whose sample loads
fine, the very first `frame_generator` pull raises `NameError` (the unbound
`coin_flip`, see C3) instead of yielding a batch of `batch_size` sequences — so the
claim does not hold for *every* valid configuration. -/
theorem c2_counterexample_hflip_only_pull_raises :
    frame_generator_batch cfgHFlipBatchOne nmTriv fsOne mOne (fun _ => 0) (fun _ => 0)
      0 none = Except.error nameErrorMsg := rfl

/-- Witness for C2 at a concrete 2-key mapping with `batch_size = 2`. -/
theorem c2_batch_size_alignment_no_replacement_witness :
    cfgPlainTwo.batch_size ≤ mTwo.keys.length ∧ mTwo.keys.Nodup ∧
    (cfgPlainTwo.horizontal_flip = true → cfgPlainTwo.vertical_flip = true) ∧
    (∀ p ∈ mTwo.keys, fsOne.listdir p ≠ []) ∧
    (∀ p ∈ mTwo.keys,
      exceptOk (build_image_sequence fsOne (get_sample_frames fsOne p)) = true) ∧
    ∃ X y pos2 coin2,
      frame_generator_batch cfgPlainTwo nmTriv fsOne mTwo (fun _ => 0) (fun _ => 0) 0 none =
        Except.ok ((X, y), pos2, coin2)
      ∧ X.length = cfgPlainTwo.batch_size
      ∧ y.length = cfgPlainTwo.batch_size
      ∧ (random_sample (fun _ => 0) cfgPlainTwo.batch_size mTwo.keys).Nodup
      ∧ (∀ p ∈ random_sample (fun _ => 0) cfgPlainTwo.batch_size mTwo.keys, p ∈ mTwo.keys)
      ∧ y = (random_sample (fun _ => 0) cfgPlainTwo.batch_size mTwo.keys).map mTwo.get
      ∧ ∀ i, i < cfgPlainTwo.batch_size → ∃ p s ps pc ps2 pc2 xi,
          (random_sample (fun _ => 0) cfgPlainTwo.batch_size mTwo.keys)[i]? = some p
          ∧ build_image_sequence fsOne (get_sample_frames fsOne p) = Except.ok s
          ∧ s ≠ []
          ∧ augmentSample cfgPlainTwo nmTriv (fun _ => 0) ps pc s = Except.ok (xi, ps2, pc2)
          ∧ X[i]? = some xi :=
  ⟨by decide, by decide, by decide, by decide, by decide,
    c2_batch_size_alignment_no_replacement cfgPlainTwo nmTriv fsOne mTwo (fun _ => 0)
      (fun _ => 0) 0 none (by decide) (by decide) (by decide) (by decide) (by decide)⟩

lemma testing_generator_next_ok (fs : FileSys) (m : PathMap) (cur : ℕ)
    (hcur : cur < m.keys.length)
    (hok : ∀ p ∈ m.keys,
      exceptOk (build_image_sequence fs (get_sample_frames fs p)) = true) :
    ∃ s, build_image_sequence fs (get_sample_frames fs (m.keys.getD cur "")) = Except.ok s
      ∧ testing_generator_next fs m cur =
          Except.ok (([s], m.get (m.keys.getD cur "")), (cur + 1) % m.keys.length) := by
  have hmem : m.keys.getD cur "" ∈ m.keys := by
    rw [List.getD_eq_getElem _ _ hcur]
    exact List.getElem_mem hcur
  obtain ⟨s, hs⟩ := (exceptOk_iff _).mp (hok _ hmem)
  have hcursor : (if cur + 1 = m.keys.length then 0 else cur + 1) =
      (cur + 1) % m.keys.length := by
    by_cases he : cur + 1 = m.keys.length
    · simp [he, Nat.mod_self]
    · have hlt : cur + 1 < m.keys.length := by omega
      simp [he, Nat.mod_eq_of_lt hlt]
  refine ⟨s, hs, ?_⟩
  unfold testing_generator_next
  simp only [hcur, decide_True, hs, hcursor]

lemma testing_generator_pull_spec (fs : FileSys) (m : PathMap)
    (hK : 0 < m.keys.length)
    (hok : ∀ p ∈ m.keys,
      exceptOk (build_image_sequence fs (get_sample_frames fs p)) = true) :
    ∀ (n cur : ℕ), cur < m.keys.length →
      ∃ s, build_image_sequence fs
            (get_sample_frames fs (m.keys.getD ((cur + n) % m.keys.length) "")) =
          Except.ok s
        ∧ testing_generator_pull fs m n cur =
            Except.ok (([s], m.get (m.keys.getD ((cur + n) % m.keys.length) "")),
              (cur + n + 1) % m.keys.length) := by
  intro n
  induction n with
  | zero =>
    intro cur hcur
    obtain ⟨s, hs, hnext⟩ := testing_generator_next_ok fs m cur hcur hok
    refine ⟨s, ?_, ?_⟩
    · simpa [Nat.mod_eq_of_lt hcur] using hs
    · show testing_generator_next fs m cur = _
      rw [hnext]
      simp [Nat.mod_eq_of_lt hcur]
  | succ n2 ih =>
    intro cur hcur
    obtain ⟨s, hs, hnext⟩ := testing_generator_next_ok fs m cur hcur hok
    have hcur2 : (cur + 1) % m.keys.length < m.keys.length := Nat.mod_lt _ hK
    obtain ⟨s2, hs2, hpull⟩ := ih ((cur + 1) % m.keys.length) hcur2
    have hidxeq : ((cur + 1) % m.keys.length + n2) % m.keys.length =
        (cur + (n2 + 1)) % m.keys.length := by
      rw [Nat.mod_add_mod]
      ring_nf
    have hcursoreq : ((cur + 1) % m.keys.length + n2 + 1) % m.keys.length =
        (cur + (n2 + 1) + 1) % m.keys.length := by
      rw [Nat.add_assoc, Nat.mod_add_mod]
      ring_nf
    refine ⟨s2, ?_, ?_⟩
    · rwa [hidxeq] at hs2
    · show (match testing_generator_next fs m cur with
        | Except.error e => Except.error e
        | Except.ok r => testing_generator_pull fs m n2 r.2) = _
      rw [hnext]
      simp only
      rw [hpull, hidxeq, hcursoreq]

/-- C7: the `n`-th pull (counting from 0) of `testing_generator` over a non-empty
mapping serves exactly one sample — the key at position `n mod K` in the mapping's
iteration order — paired with that key's label; the served sequence is the raw
assembly `build_image_sequence` with no augmentation transform applied, and the
cursor left behind is `(n+1) mod K`, so `K` consecutive pulls cover the keys in order
and the pull after the last key wraps back to the first. -/
theorem c7_testing_generator_round_robin (fs : FileSys) (m : PathMap) (n : ℕ)
    (hK : 0 < m.keys.length)
    (hok : ∀ p ∈ m.keys,
      exceptOk (build_image_sequence fs (get_sample_frames fs p)) = true) :
    ∃ s, build_image_sequence fs
          (get_sample_frames fs (m.keys.getD (n % m.keys.length) "")) = Except.ok s
      ∧ testing_generator_pull fs m n 0 =
          Except.ok (([s], m.get (m.keys.getD (n % m.keys.length) "")),
            (n + 1) % m.keys.length) := by
  have := testing_generator_pull_spec fs m hK hok n 0 hK
  simpa using this

/-- A three-key mapping for the C7 witness. -/
def mThree : PathMap := ⟨["p0", "p1", "p2"], fun _ => (70, 16)⟩

/-- Witness for C7: three keys, fourth pull (n = 3) wraps back to the first key. -/
theorem c7_testing_generator_round_robin_witness :
    0 < mThree.keys.length ∧
    (∀ p ∈ mThree.keys,
      exceptOk (build_image_sequence fsOne (get_sample_frames fsOne p)) = true) ∧
    ∃ s, build_image_sequence fsOne
          (get_sample_frames fsOne (mThree.keys.getD (3 % mThree.keys.length) "")) =
        Except.ok s
      ∧ testing_generator_pull fsOne mThree 3 0 =
          Except.ok (([s], mThree.get (mThree.keys.getD (3 % mThree.keys.length) "")),
            (3 + 1) % mThree.keys.length) :=
  ⟨by decide, by decide,
    c7_testing_generator_round_robin fsOne mThree 3 (by decide) (by decide)⟩

lemma build_image_sequence_ok_iff (fs : FileSys) (frames : List String)
    (shape : ℕ × ℕ × ℕ) :
    (∃ s, build_image_sequence fs frames shape = Except.ok s ∧ s.length = frames.length)
      ↔ ∀ p ∈ frames, (fs.load p (shape.1, shape.2.1)).isSome = true := by
  induction frames with
  | nil =>
    constructor
    · intro _ p hp
      simp at hp
    · intro _
      exact ⟨[], rfl, rfl⟩
  | cons f rest ih =>
    constructor
    · rintro ⟨s, hs, hlen⟩ p hp
      cases hload : fs.load f (shape.1, shape.2.1) with
      | none => simp [build_image_sequence, process_img, hload] at hs
      | some img =>
        rcases List.mem_cons.mp hp with rfl | hp2
        · simp [hload]
        · cases hrest : build_image_sequence fs rest shape with
          | error e => simp [build_image_sequence, process_img, hload, hrest] at hs
          | ok xs =>
            have hsval : s = (img.map fun row => row.map fun chan =>
                chan.map fun v => v / 255) :: xs := by
              simp [build_image_sequence, process_img, hload, hrest] at hs
              exact hs.symm
            have hxslen : xs.length = rest.length := by
              rw [hsval] at hlen
              simpa using hlen
            exact ih.mp ⟨xs, hrest, hxslen⟩ p hp2
    · intro hall
      have hf : (fs.load f (shape.1, shape.2.1)).isSome = true :=
        hall f (List.mem_cons_self f rest)
      obtain ⟨img, himg⟩ := Option.isSome_iff_exists.mp hf
      obtain ⟨xs, hxs, hxslen⟩ := ih.mpr fun p hp => hall p (List.mem_cons_of_mem _ hp)
      exact ⟨(img.map fun row => row.map fun chan => chan.map fun v => v / 255) :: xs,
        by simp [build_image_sequence, process_img, himg, hxs], by simp [hxslen]⟩

/-- C8: `get_sample_frames` is index-driven — it builds exactly the paths
`frame0.png .. frame(count-1).png` in index order, where `count` is the number of
entries of the sample directory, so two filesystems whose listings agree in *count*
(even with different listing orders) yield identical path lists; assembling succeeds
with a full-length sequence iff every one of those indexed frame files loads; every
`ok` assembly has exactly `count` frames (never a truncated sequence); and a single
missing or undecodable indexed frame makes `build_image_sequence` return the
`IOError` (`Except.error ioErrorMsg`) rather than a shorter sequence. -/
theorem c8_index_driven_paths_and_missing_frame_raises (fs fs2 : FileSys)
    (sample : String) (n : ℕ) (input_shape : ℕ × ℕ × ℕ)
    (hlen : (fs.listdir sample).length = (fs2.listdir sample).length)
    (hn : n < (fs.listdir sample).length) :
    get_sample_frames fs sample = get_sample_frames fs2 sample
    ∧ (get_sample_frames fs sample).length = (fs.listdir sample).length
    ∧ (get_sample_frames fs sample)[n]? = some (frame_path sample n)
    ∧ ((∃ s, build_image_sequence fs (get_sample_frames fs sample) input_shape =
            Except.ok s
          ∧ s.length = (fs.listdir sample).length)
        ↔ ∀ p ∈ get_sample_frames fs sample,
            (fs.load p (input_shape.1, input_shape.2.1)).isSome = true)
    ∧ (∀ s, build_image_sequence fs (get_sample_frames fs sample) input_shape =
          Except.ok s → s.length = (fs.listdir sample).length)
    ∧ ((∃ p ∈ get_sample_frames fs sample,
          fs.load p (input_shape.1, input_shape.2.1) = none) →
        build_image_sequence fs (get_sample_frames fs sample) input_shape =
          Except.error ioErrorMsg) := by
  refine ⟨by simp [get_sample_frames, hlen], by simp [get_sample_frames], ?_, ?_, ?_, ?_⟩
  · simp [get_sample_frames, List.getElem?_map, List.getElem?_range, hn]
  · have hiff := build_image_sequence_ok_iff fs (get_sample_frames fs sample) input_shape
    simp only [get_sample_frames, List.length_map, List.length_range] at hiff
    exact hiff
  · intro s hs
    have hl := build_image_sequence_ok_length fs (get_sample_frames fs sample)
      input_shape s hs
    simpa [get_sample_frames] using hl
  · exact build_image_sequence_missing_error fs (get_sample_frames fs sample) input_shape

/-- A filesystem listing two entries per directory, out of index order, with both
indexed frame files present. -/
def fsOrderA : FileSys :=
  ⟨fun _ => ["frame1.png", "frame0.png"],
   fun p _ => if p = "s/frame0.png" ∨ p = "s/frame1.png" then some [[[0]]] else none⟩

/-- The same directory contents listed in the opposite order. -/
def fsOrderB : FileSys :=
  ⟨fun _ => ["frame0.png", "frame1.png"],
   fun p _ => if p = "s/frame0.png" ∨ p = "s/frame1.png" then some [[[0]]] else none⟩

/-- Witness for C8 at two concrete filesystems differing only in listing order. -/
theorem c8_index_driven_paths_and_missing_frame_raises_witness :
    (fsOrderA.listdir "s").length = (fsOrderB.listdir "s").length ∧
    1 < (fsOrderA.listdir "s").length ∧
    (get_sample_frames fsOrderA "s" = get_sample_frames fsOrderB "s"
    ∧ (get_sample_frames fsOrderA "s").length = (fsOrderA.listdir "s").length
    ∧ (get_sample_frames fsOrderA "s")[1]? = some (frame_path "s" 1)
    ∧ ((∃ s, build_image_sequence fsOrderA (get_sample_frames fsOrderA "s")
            (224, 224, 3) = Except.ok s
          ∧ s.length = (fsOrderA.listdir "s").length)
        ↔ ∀ p ∈ get_sample_frames fsOrderA "s",
            (fsOrderA.load p ((224, 224, 3).1, (224, 224, 3).2.1)).isSome = true)
    ∧ (∀ s, build_image_sequence fsOrderA (get_sample_frames fsOrderA "s")
          (224, 224, 3) = Except.ok s → s.length = (fsOrderA.listdir "s").length)
    ∧ ((∃ p ∈ get_sample_frames fsOrderA "s",
          fsOrderA.load p ((224, 224, 3).1, (224, 224, 3).2.1) = none) →
        build_image_sequence fsOrderA (get_sample_frames fsOrderA "s") (224, 224, 3) =
          Except.error ioErrorMsg)) :=
  ⟨by decide, by decide,
    c8_index_driven_paths_and_missing_frame_raises fsOrderA fsOrderB "s" 1 (224, 224, 3)
      (by decide) (by decide)⟩
